import Mathlib

/-!
Verification of the PromptEnhancer client against its specification.

The development shallow-embeds the three request-building call sites
(`PromptForm.handleSubmit`, `App.handleEnhancedPrompt`,
`PromptEnhancer.enhancePrompt`), the response-extraction and error handling
logic, the output segment formatter (`PromptEnhancer.formatOutput`), and the
two locally persisted collections (model presets and the enhanced-prompt
library) together with their CRUD, filter and sort operations.

Conventions:
- JavaScript numbers appearing in request bodies are modelled as rationals;
  integral fields (`max_tokens`, timestamps) use `Int`.
- `Date` values are modelled by their epoch-millisecond value, so
  `new Date(x).getTime()` is the identity.
- The browser storage and the JSON serialization layer are external
  collaborators (spec section 1); collection persistence is modelled at the
  value level, and the load-time parse logic over an abstract decoder.
-/

namespace PromptEnhancer

/-- Model of a JavaScript value produced by `JSON.parse` (also used to
describe the JSON request bodies built by `JSON.stringify`). Object fields
are an ordered association list, matching insertion order of the literal. -/
inductive JsValue where
  | null : JsValue
  | bool : Bool → JsValue
  | num : Rat → JsValue
  | str : String → JsValue
  | arr : List JsValue → JsValue
  | obj : List (String × JsValue) → JsValue

/-- The ordered key list of a JSON object (empty for non-objects). -/
def objKeys : JsValue → List String
  | .obj fields => fields.map Prod.fst
  | _ => []

/-- Field lookup in a JSON object; `none` both for a missing key and for a
non-object, mirroring a JavaScript property read yielding `undefined`. -/
def objGet (v : JsValue) (key : String) : Option JsValue :=
  match v with
  | .obj fields => (fields.find? (fun f => f.1 = key)).map Prod.snd
  | _ => none

/-! ## Chat Client: request construction

Each of the three call sites performs a single
`fetch(apiEndpoint + "/v1/chat/completions", \x7b method: POST, ... \x7d)`
with a JSON body built inline by `JSON.stringify`.  The body of each call
site is transcribed field by field from the source. -/

/-- An outbound HTTP request as built by a call site. -/
structure HttpRequest where
  url : String
  method : String
  contentType : String
  body : JsValue

/-- The `messages` array shared by all three request bodies:
a system message followed by a user message. -/
def messagesJson (systemPrompt userPrompt : String) : JsValue :=
  .arr [ .obj [("role", .str "system"), ("content", .str systemPrompt)],
         .obj [("role", .str "user"), ("content", .str userPrompt)] ]

/-- Request built by `PromptForm.handleSubmit` (src/components/PromptForm.tsx,
lines 81-94): body has fields model, messages, temperature, max_tokens,
stream, all taken from the current form state. -/
def promptFormRequest (apiEndpoint model systemPrompt userPrompt : String)
    (temperature : Rat) (maxTokens : Int) (stream : Bool) : HttpRequest :=
  { url := apiEndpoint ++ "/v1/chat/completions"
    method := "POST"
    contentType := "application/json"
    body := .obj [("model", .str model),
                  ("messages", messagesJson systemPrompt userPrompt),
                  ("temperature", .num temperature),
                  ("max_tokens", .num maxTokens),
                  ("stream", .bool stream)] }

/-- Request built by `App.handleEnhancedPrompt` (src/App.tsx, lines 17-28):
model, temperature and max_tokens are fixed literals and there is no
stream field. -/
def appRequest (apiEndpoint systemPrompt userPrompt : String) : HttpRequest :=
  { url := apiEndpoint ++ "/v1/chat/completions"
    method := "POST"
    contentType := "application/json"
    body := .obj [("model", .str "mistral-nemo-instruct-2407"),
                  ("messages", messagesJson systemPrompt userPrompt),
                  ("temperature", .num (7/10)),
                  ("max_tokens", .num (-1 : Int))] }

/-- The fixed enhancement instruction `ENHANCEMENT_SYSTEM_PROMPT`
(src/components/PromptEnhancer.tsx, lines 33-42). -/
def ENHANCEMENT_SYSTEM_PROMPT : String :=
  "You are an expert prompt engineer. Your task is to enhance the user\x27s basic prompt into a more detailed, effective prompt that will produce better results.\n\nFollow these guidelines to improve the user\x27s prompt:\n1. Add specific details and context that seem appropriate\n2. Include clear instructions on tone, format, and style\n3. Break complex requests into structured parts\n4. Add constraints and specific requirements\n5. Avoid making the prompt too verbose or repetitive\n\nReturn ONLY the enhanced prompt without any explanations or additional text. The enhanced prompt should be professional and ready to be used directly."

/-- Request built by `PromptEnhancer.enhancePrompt`
(src/components/PromptEnhancer.tsx, lines 91-103): the system message is
the fixed enhancement instruction, the user message is the basic prompt;
model, temperature and max_tokens are fixed literals and there is no
stream field. -/
def enhancerRequest (apiEndpoint basePrompt : String) : HttpRequest :=
  { url := apiEndpoint ++ "/v1/chat/completions"
    method := "POST"
    contentType := "application/json"
    body := .obj [("model", .str "mistral-nemo-instruct-2407"),
                  ("messages", messagesJson ENHANCEMENT_SYSTEM_PROMPT basePrompt),
                  ("temperature", .num (7/10)),
                  ("max_tokens", .num (-1 : Int))] }

/-- The sequence of requests issued by one run of `handleSubmit`: the
function body contains a single `fetch` call. -/
def promptFormRequests (apiEndpoint model systemPrompt userPrompt : String)
    (temperature : Rat) (maxTokens : Int) (stream : Bool) : List HttpRequest :=
  [promptFormRequest apiEndpoint model systemPrompt userPrompt temperature maxTokens stream]

/-- The single request issued by one run of `handleEnhancedPrompt`. -/
def appRequests (apiEndpoint systemPrompt userPrompt : String) : List HttpRequest :=
  [appRequest apiEndpoint systemPrompt userPrompt]

/-- The single request issued by one run of `enhancePrompt` (after its
non-empty-input guard passed). -/
def enhancerRequests (apiEndpoint basePrompt : String) : List HttpRequest :=
  [enhancerRequest apiEndpoint basePrompt]

/-! ## Chat Client: response handling

All three call sites share the shape

  try \x7b res = await fetch(...); data = await res.json();
        deliver(data.choices[0].message.content) \x7d
  catch (error) \x7b deliver(errTag + message) \x7d

A JavaScript property read `base.p` throws a `TypeError` when `base` is
`undefined` or `null`, and yields `undefined` when the property is merely
absent.  `Option JsValue` models a possibly-`undefined` value
(`none` = `undefined`); `Except String` models a thrown error carrying its
message. -/

/-- Property read `base.prop` with JavaScript semantics: throws on an
`undefined` or `null` base; yields `undefined` on a primitive base or a
missing key. -/
def jsGetProp (base : Option JsValue) (prop : String) : Except String (Option JsValue) :=
  match base with
  | none => .error ("Cannot read properties of undefined (reading " ++ prop ++ ")")
  | some .null => .error ("Cannot read properties of null (reading " ++ prop ++ ")")
  | some v => .ok (objGet v prop)

/-- Index read `base[n]` with JavaScript semantics: throws on an `undefined`
or `null` base; indexes an array; reads the decimal key on an object;
yields a one-character string on a string; `undefined` otherwise. -/
def jsIndex (base : Option JsValue) (n : Nat) : Except String (Option JsValue) :=
  match base with
  | none => .error ("Cannot read properties of undefined (reading " ++ toString n ++ ")")
  | some .null => .error ("Cannot read properties of null (reading " ++ toString n ++ ")")
  | some (.arr elems) => .ok (elems.get? n)
  | some (.obj fields) => .ok (objGet (.obj fields) (toString n))
  | some (.str s) => .ok (if n < s.length then some (.str (String.mk [s.toList.getD n ' '])) else none)
  | some _ => .ok none

/-- Evaluation of the access path `data.choices[0].message.content`. -/
def extractContent (data : JsValue) : Except String (Option JsValue) := do
  let choices ← jsGetProp (some data) "choices"
  let first ← jsIndex choices 0
  let message ← jsGetProp first "message"
  jsGetProp message "content"

/-- Outcome of the awaited `fetch` + `res.json()` pair as seen by a call
site: the network layer rejected, the body failed to parse as JSON, or a
parsed JSON value was produced. -/
inductive FetchOutcome where
  | networkError : String → FetchOutcome
  | nonJsonBody : String → FetchOutcome
  | jsonBody : JsValue → FetchOutcome

/-- The value a call site hands to its consumer (`setResult`, `onResult`
or `setEnhancedPrompt`): on any thrown error, the synthesized text
`errTag ++ message`; otherwise the extracted content, which may be
`undefined` (`none`) when only the final `content` field is absent. -/
def handleChatOutcome (errTag : String) (outcome : FetchOutcome) : Option JsValue :=
  match outcome with
  | .networkError m => some (.str (errTag ++ m))
  | .nonJsonBody m => some (.str (errTag ++ m))
  | .jsonBody data =>
    match extractContent data with
    | .error m => some (.str (errTag ++ m))
    | .ok content => content

/-- Delivered value of `PromptForm.handleSubmit` (error label from
src/components/PromptForm.tsx line 99). -/
def promptFormDeliver : FetchOutcome → Option JsValue :=
  handleChatOutcome "Error: "

/-- Delivered value of `App.handleEnhancedPrompt` (error label from
src/App.tsx line 34). -/
def appDeliver : FetchOutcome → Option JsValue :=
  handleChatOutcome "Error: "

/-- Delivered value of `PromptEnhancer.enhancePrompt` (error label from
src/components/PromptEnhancer.tsx line 108). -/
def enhancerDeliver : FetchOutcome → Option JsValue :=
  handleChatOutcome "Error enhancing prompt: "

/-! ## Segment Formatter

`PromptEnhancer.formatOutput` (src/components/PromptEnhancer.tsx,
lines 160-202) splits the text on the regular expression
/```(?:[\w]*\n)?/ , decides code-vs-text per part by index parity
conditioned on whether the trimmed text starts with a fence, drops
whitespace-only parts, trims code parts, and splits text parts into
non-blank paragraphs on newlines. -/

/-- JavaScript `\w`: ASCII letters, digits and underscore. -/
def isWordChar (c : Char) : Bool :=
  c.isAlpha || c.isDigit || c = '_'

/-- Whitespace as recognized by JavaScript `trim` (ASCII whitespace plus
the common Unicode members; the inputs of interest are ASCII). -/
def jsIsWhitespace (c : Char) : Bool :=
  c = ' ' || c = '\t' || c = '\n' || c = '\r' || c = '\x0b' || c = '\x0c' ||
  c = '\u00A0' || c = '\uFEFF' || c = '\u2028' || c = '\u2029'

/-- JavaScript `String.prototype.trim`. -/
def jsTrim (s : String) : String :=
  String.mk (((s.data.dropWhile jsIsWhitespace).reverse.dropWhile jsIsWhitespace).reverse)

/-- Leftmost match of the delimiter /```(?:[\w]*\n)?/ at the head of the
character list: three backticks, then — because the inner group is greedy
and `\n` is not a word character — the maximal word-character run plus a
newline when that run is immediately followed by one, and nothing more
otherwise.  Returns the remainder after the matched delimiter. -/
def fenceMatch (cs : List Char) : Option (List Char) :=
  match cs with
  | c1 :: c2 :: c3 :: rest =>
    if c1 = '`' && c2 = '`' && c3 = '`' then
      match rest.dropWhile isWordChar with
      | c :: rest2 => if c = '\n' then some rest2 else some rest
      | [] => some rest
    else none
  | _ => none

/-- Scan of `String.prototype.split` with the fence-delimiter pattern:
accumulate characters until the delimiter matches, then emit the
accumulated part and continue after the delimiter.  The scan consumes at
least one character per step, so `fuel := cs.length` never runs out; the
fuel only makes the recursion structural.  `splitFencesAux_eq` below
proves the intended recurrence. -/
def splitFencesGo (fuel : Nat) (acc : List Char) (cs : List Char) : List String :=
  match fuel with
  | 0 => [String.mk (acc.reverse ++ cs)]
  | fuel2 + 1 =>
    match fenceMatch cs with
    | some rest => String.mk acc.reverse :: splitFencesGo fuel2 [] rest
    | none =>
      match cs with
      | [] => [String.mk acc.reverse]
      | c :: cs2 => splitFencesGo fuel2 (c :: acc) cs2

/-- The fence-split scan at adequate fuel. -/
def splitFencesAux (acc : List Char) (cs : List Char) : List String :=
  splitFencesGo cs.length acc cs

/-- `text.split(/```(?:[\w]*\n)?/)`. -/
def splitFences (text : String) : List String :=
  splitFencesAux [] text.data

/-- Does the trimmed text start with the fence marker
(`text.trim().startsWith("```")`, line 165)? -/
def startsFence (text : String) : Bool :=
  match (jsTrim text).data with
  | '`' :: '`' :: '`' :: _ => true
  | _ => false

/-- A rendered segment: a code block (with trimmed content) or a run of
prose paragraphs (the non-blank lines of the part, kept untrimmed). -/
inductive Segment where
  | text : List String → Segment
  | code : String → Segment
deriving DecidableEq

/-- `part.split(sep)` keeping empty pieces, as in JavaScript. -/
def splitOnChar (sep : Char) : List Char → List (List Char)
  | [] => [[]]
  | c :: cs =>
    if c = sep then [] :: splitOnChar sep cs
    else
      match splitOnChar sep cs with
      | [] => [[c]]
      | p :: ps => (c :: p) :: ps

/-- The paragraphs of a text part: `part.split` on the newline character,
keeping only lines whose trim is non-empty (lines 191-197). -/
def paragraphsOf (part : String) : List String :=
  ((splitOnChar '\n' part.data).map String.mk).filter (fun p => jsTrim p ≠ "")

/-- The segment emitted for the split part at index `i` (the body of the
`parts.map` at lines 167-201): `none` for a whitespace-only part; a code
segment with trimmed content when
(startsFence && i odd) || (!startsFence && i even); a text segment with
the non-blank paragraphs of the part otherwise. -/
def partSegment (isCodeBlock : Bool) (i : Nat) (part : String) : Option Segment :=
  if jsTrim part = "" then none
  else if (isCodeBlock && i % 2 = 1) || (!isCodeBlock && i % 2 = 0) then
    some (.code (jsTrim part))
  else
    some (.text (paragraphsOf part))

/-- `formatOutput` (lines 160-202): empty input renders nothing; otherwise
split on the fence delimiter and map each indexed part to its segment,
dropping the `null` entries (the trailing `.filter(Boolean)`). -/
def formatOutput (text : String) : List Segment :=
  if text = "" then []
  else
    ((splitFences text).enum).filterMap (fun p => partSegment (startsFence text) p.1 p.2)

/-! ## Collection Store

Two independently persisted ordered collections: model presets
(src/components/PromptForm.tsx) and the enhanced-prompt library
(src/components/PromptEnhancer.tsx).  Persistence goes through the browser
local key-value store with `JSON.stringify`/`JSON.parse`; the blob layer is
external, so mutation-time persistence is modelled at the value level (the
stored field holds the collection the serialized blob denotes), while the
load-time logic — which must handle a missing key and a malformed blob —
is modelled over an abstract decoder standing for `JSON.parse`. -/

/-- `ModelPreset` (src/components/PromptForm.tsx, lines 10-17). -/
structure ModelPreset where
  id : String
  name : String
  model : String
  systemPrompt : String
  temperature : Rat
  maxTokens : Int
deriving DecidableEq

/-- `DEFAULT_PRESETS` (src/components/PromptForm.tsx, lines 19-44). -/
def DEFAULT_PRESETS : List ModelPreset :=
  [ { id := "1", name := "Rhyming Assistant", model := "mistral-nemo-instruct-2407",
      systemPrompt := "Always answer in rhymes. Today is Thursday",
      temperature := 7/10, maxTokens := -1 },
    { id := "2", name := "Helpful Assistant", model := "mistral-nemo-instruct-2407",
      systemPrompt := "You are a helpful, harmless, and honest AI assistant.",
      temperature := 7/10, maxTokens := -1 },
    { id := "3", name := "Precise Analyst", model := "mistral-nemo-instruct-2407",
      systemPrompt := "You are a precise, analytical assistant that provides factual, well-reasoned responses.",
      temperature := 3/10, maxTokens := -1 } ]

/-- `EnhancedPrompt` (src/components/PromptEnhancer.tsx, lines 3-11);
`createdAt` is the epoch-millisecond value of the `Date`. -/
structure EnhancedPrompt where
  id : String
  originalPrompt : String
  enhancedPrompt : String
  systemPrompt : String
  category : String
  createdAt : Int
  favorite : Bool
deriving DecidableEq

/-- The load-time logic shared by both collections (PromptForm.tsx lines
59-69, PromptEnhancer.tsx lines 54-64): read the stored blob under the
collection key; when it is absent (or empty, which the truthiness test also
treats as absent) keep the in-memory default; when `decode` — standing for
`JSON.parse` — throws, log a diagnostic (the returned flag) and keep the
default; otherwise adopt the decoded collection. -/
def loadStored {α : Type} (dflt : α) (decode : String → Option α)
    (stored : Option String) : α × Bool :=
  match stored with
  | none => (dflt, false)
  | some blob =>
    if blob = "" then (dflt, false)
    else
      match decode blob with
      | none => (dflt, true)
      | some v => (v, false)

/-- State of the preset store: the in-memory list, the active-preset
selection, and the collection denoted by the persisted blob (`none` before
any write). -/
structure PresetState where
  presets : List ModelPreset
  activePreset : Option String
  stored : Option (List ModelPreset)

/-- State of the enhanced-prompt library: the in-memory list and the
collection denoted by the persisted blob. -/
structure LibraryState where
  savedPrompts : List EnhancedPrompt
  stored : Option (List EnhancedPrompt)

/-- Reading the library back after a restart, when the stored blob is a
previous `JSON.stringify` of the collection (so `JSON.parse` succeeds and
round-trips): missing key gives the empty default. -/
def reloadLibrary (stored : Option (List EnhancedPrompt)) : List EnhancedPrompt :=
  stored.getD []

/-- Reading the presets back after a restart under the same round-trip
assumption: missing key gives the seed default. -/
def reloadPresets (stored : Option (List ModelPreset)) : List ModelPreset :=
  stored.getD DEFAULT_PRESETS

/-- `saveCurrentAsPreset` (src/components/PromptForm.tsx, lines 105-120):
guarded on a non-blank name, appends a preset built from the current form
state with the freshly generated `newId`, selects it, and (via the
persistence effect on lines 72-74) rewrites the stored collection. -/
def saveCurrentAsPreset (st : PresetState) (newPresetName model systemPrompt : String)
    (temperature : Rat) (maxTokens : Int) (newId : String) : PresetState :=
  if jsTrim newPresetName = "" then st
  else
    let newPreset : ModelPreset :=
      { id := newId, name := newPresetName, model := model,
        systemPrompt := systemPrompt, temperature := temperature, maxTokens := maxTokens }
    { presets := st.presets ++ [newPreset]
      activePreset := some newId
      stored := some (st.presets ++ [newPreset]) }

/-- `deletePreset` (src/components/PromptForm.tsx, lines 131-135): drops
the presets whose id matches, clears the active selection when it pointed
at the removed id, and rewrites the stored collection. -/
def deletePreset (st : PresetState) (id : String) : PresetState :=
  let updated := st.presets.filter (fun p => p.id ≠ id)
  { presets := updated
    activePreset := if st.activePreset = some id then none else st.activePreset
    stored := some updated }

/-- `saveEnhancedPrompt` (src/components/PromptEnhancer.tsx, lines
118-134): guarded on a non-empty enhanced prompt, appends a record built
from the current inputs with the freshly generated `newId` and the current
time, and rewrites the stored collection. -/
def saveEnhancedPrompt (st : LibraryState)
    (basePrompt enhancedPrompt selectedCategory newId : String) (now : Int) : LibraryState :=
  if enhancedPrompt = "" then st
  else
    let newPrompt : EnhancedPrompt :=
      { id := newId, originalPrompt := basePrompt, enhancedPrompt := enhancedPrompt,
        systemPrompt := ENHANCEMENT_SYSTEM_PROMPT, category := selectedCategory,
        createdAt := now, favorite := false }
    { savedPrompts := st.savedPrompts ++ [newPrompt]
      stored := some (st.savedPrompts ++ [newPrompt]) }

/-- `toggleFavorite` (src/components/PromptEnhancer.tsx, lines 136-142):
maps over the collection, negating `favorite` on the records whose id
matches, and rewrites the stored collection. -/
def toggleFavorite (st : LibraryState) (id : String) : LibraryState :=
  let updated := st.savedPrompts.map (fun p =>
    if p.id = id then { p with favorite := !p.favorite } else p)
  { savedPrompts := updated, stored := some updated }

/-- `deletePrompt` (src/components/PromptEnhancer.tsx, lines 144-148):
drops the records whose id matches and rewrites the stored collection. -/
def deletePrompt (st : LibraryState) (id : String) : LibraryState :=
  let updated := st.savedPrompts.filter (fun p => p.id ≠ id)
  { savedPrompts := updated, stored := some updated }

/-! ## Library view: filter then sort

Lines 478-481 of src/components/PromptEnhancer.tsx render
`savedPrompts.filter(...).sort((a, b) => timeOf b - timeOf a)`.
`Array.prototype.sort` is required to be stable, and with the comparator
`b.createdAt - a.createdAt` — a consistent total preorder — the result is
the unique stable descending reordering by `createdAt`; it is modelled by
a stable insertion sort.  The sort runs on the fresh array produced by
`filter`, so the stored collection is untouched. -/

/-- Insert a record into a descending-sorted list, after every earlier
record with a greater-or-equal timestamp (stability for ties). -/
def insertDesc (x : EnhancedPrompt) : List EnhancedPrompt → List EnhancedPrompt
  | [] => [x]
  | q :: qs => if q.createdAt < x.createdAt then x :: q :: qs else q :: insertDesc x qs

/-- Stable sort by `createdAt` descending: fold the records left to right
into a sorted accumulator. -/
def sortByCreatedAtDesc (l : List EnhancedPrompt) : List EnhancedPrompt :=
  l.foldl (fun acc x => insertDesc x acc) []

/-- The rendered library sequence: keep the records matching the selected
category (everything for the "All" wildcard), then sort by `createdAt`
descending. -/
def libraryView (savedPrompts : List EnhancedPrompt) (filterCategory : String) :
    List EnhancedPrompt :=
  sortByCreatedAtDesc
    (savedPrompts.filter (fun p => filterCategory = "All" || p.category = filterCategory))


/-! ## Observations used to state the reconstruction property -/

/-- Concatenation of a list of strings. -/
def strJoin : List String → String
  | [] => ""
  | s :: rest => s ++ strJoin rest

/-- The non-whitespace residue of a string: its characters that are not
whitespace, in order. -/
def removeWS (s : String) : List Char :=
  s.data.filter (fun c => !jsIsWhitespace c)

/-- The visible content of a segment: the code text, or the concatenated
paragraphs. -/
def segContent : Segment → String
  | .code c => c
  | .text ps => strJoin ps

/-- The concatenated visible content of a segment sequence. -/
def segmentsContent (segs : List Segment) : String :=
  strJoin (segs.map segContent)

/-- The input with the fence markers (each delimiter match, including any
language tag it swallowed) stripped: the concatenation of the split
parts. -/
def fenceStripped (text : String) : String :=
  strJoin (splitFences text)

/-- A segment with visible content: a non-empty code block, or a non-empty
paragraph list all of whose paragraphs are non-empty. -/
def segHasContent : Segment → Prop
  | .code c => c ≠ ""
  | .text ps => ps ≠ [] ∧ ∀ p ∈ ps, p ≠ ""

/-! ## Supporting lemmas -/

theorem fenceMatch_length {cs rest : List Char} (h : fenceMatch cs = some rest) :
    rest.length < cs.length := by
  match cs with
  | [] => simp [fenceMatch] at h
  | [c1] => simp [fenceMatch] at h
  | [c1, c2] => simp [fenceMatch] at h
  | c1 :: c2 :: c3 :: tl =>
    by_cases hb : c1 = '`' && c2 = '`' && c3 = '`'
    · simp only [fenceMatch, hb, if_true] at h
      have hdrop : (tl.dropWhile isWordChar).length ≤ tl.length :=
        List.Sublist.length_le (List.dropWhile_sublist _)
      match hd : tl.dropWhile isWordChar with
      | [] =>
        rw [hd] at h
        simp at h
        subst h
        simp
        omega
      | c :: rest2 =>
        rw [hd] at h
        by_cases hc : c = '\n'
        · simp [hc] at h
          subst h
          rw [hd] at hdrop
          simp at hdrop ⊢
          omega
        · simp [hc] at h
          subst h
          simp
          omega
    · simp [fenceMatch, hb] at h

theorem splitFencesGo_fuel (fuel1 fuel2 : Nat) (acc cs : List Char)
    (h1 : cs.length ≤ fuel1) (h2 : cs.length ≤ fuel2) :
    splitFencesGo fuel1 acc cs = splitFencesGo fuel2 acc cs := by
  induction fuel1 generalizing fuel2 acc cs with
  | zero =>
    have hnil : cs = [] := List.length_eq_zero.mp (Nat.le_zero.mp h1)
    subst hnil
    cases fuel2 with
    | zero => rfl
    | succ n => simp [splitFencesGo, fenceMatch]
  | succ n ih =>
    cases fuel2 with
    | zero =>
      have hnil : cs = [] := List.length_eq_zero.mp (Nat.le_zero.mp h2)
      subst hnil
      simp [splitFencesGo, fenceMatch]
    | succ m =>
      match hm : fenceMatch cs with
      | some rest =>
        have hlen : rest.length < cs.length := fenceMatch_length hm
        simp only [splitFencesGo, hm]
        rw [ih m [] rest (by omega) (by omega)]
      | none =>
        match cs with
        | [] => simp [splitFencesGo, hm]
        | c :: cs2 =>
          simp only [splitFencesGo, hm]
          exact ih m (c :: acc) cs2 (by simpa using h1) (by simpa using h2)

/-- The scan satisfies the intended recurrence: emit the accumulated part
at a delimiter match and restart after it; otherwise shift one character;
at the end emit the final part. -/
theorem splitFencesAux_eq (acc cs : List Char) :
    splitFencesAux acc cs =
      match fenceMatch cs with
      | some rest => String.mk acc.reverse :: splitFencesAux [] rest
      | none =>
        match cs with
        | [] => [String.mk acc.reverse]
        | c :: cs2 => splitFencesAux (c :: acc) cs2 := by
  match cs with
  | [] => simp [splitFencesAux, splitFencesGo, fenceMatch]
  | c :: cs2 =>
    match hm : fenceMatch (c :: cs2) with
    | some rest =>
      have hlen : rest.length < (c :: cs2).length := fenceMatch_length hm
      simp only [splitFencesAux, splitFencesGo, List.length_cons, hm]
      rw [splitFencesGo_fuel cs2.length rest.length [] rest (by simp at hlen; omega) (le_refl _)]
    | none =>
      simp only [splitFencesAux, splitFencesGo, List.length_cons, hm]


theorem removeWS_append (a b : String) :
    removeWS (a ++ b) = removeWS a ++ removeWS b := by
  simp [removeWS, String.data_append, List.filter_append]

theorem wsFilter_dropWhile (l : List Char) :
    (l.dropWhile jsIsWhitespace).filter (fun c => !jsIsWhitespace c)
      = l.filter (fun c => !jsIsWhitespace c) := by
  conv_rhs => rw [← List.takeWhile_append_dropWhile (p := jsIsWhitespace) (l := l)]
  rw [List.filter_append]
  have h : (l.takeWhile jsIsWhitespace).filter (fun c => !jsIsWhitespace c) = [] := by
    rw [List.filter_eq_nil_iff]
    intro c hc
    simp [List.mem_takeWhile_imp hc]
  simp [h]

theorem removeWS_jsTrim (s : String) : removeWS (jsTrim s) = removeWS s := by
  show (((s.data.dropWhile jsIsWhitespace).reverse.dropWhile jsIsWhitespace).reverse).filter
      (fun c => !jsIsWhitespace c) = s.data.filter (fun c => !jsIsWhitespace c)
  rw [List.filter_reverse, wsFilter_dropWhile, List.filter_reverse, List.reverse_reverse,
    wsFilter_dropWhile]

theorem jsTrim_eq_empty_iff (s : String) : jsTrim s = "" ↔ removeWS s = [] := by
  constructor
  · intro h
    have h2 := removeWS_jsTrim s
    rw [h] at h2
    exact h2.symm.trans rfl
  · intro h
    have hws : ∀ c ∈ s.data, jsIsWhitespace c := by
      intro c hc
      by_contra hno
      have hmem : c ∈ s.data.filter (fun c => !jsIsWhitespace c) := by
        rw [List.mem_filter]
        exact ⟨hc, by simpa using hno⟩
      rw [show s.data.filter (fun c => !jsIsWhitespace c) = removeWS s from rfl, h] at hmem
      exact absurd hmem (List.not_mem_nil c)
    have hdrop : s.data.dropWhile jsIsWhitespace = [] :=
      List.dropWhile_eq_nil_iff.mpr (fun c hc => hws c hc)
    show String.mk (((s.data.dropWhile jsIsWhitespace).reverse.dropWhile
        jsIsWhitespace).reverse) = ""
    rw [hdrop]
    rfl

theorem splitOnChar_ne_nil (sep : Char) (l : List Char) : splitOnChar sep l ≠ [] := by
  match l with
  | [] => simp [splitOnChar]
  | c :: cs =>
    by_cases hc : c = sep
    · simp [splitOnChar, hc]
    · simp only [splitOnChar, if_neg hc]
      match splitOnChar sep cs with
      | [] => simp
      | p :: ps => simp

theorem wsFilter_splitOnChar_join (l : List Char) :
    ((splitOnChar '\n' l).flatten).filter (fun c => !jsIsWhitespace c)
      = l.filter (fun c => !jsIsWhitespace c) := by
  induction l with
  | nil => simp [splitOnChar]
  | cons c cs ih =>
    by_cases hc : c = '\n'
    · subst hc
      have hstep : splitOnChar '\n' ('\n' :: cs) = [] :: splitOnChar '\n' cs := by
        simp [splitOnChar]
      rw [hstep, List.flatten_cons, List.nil_append, ih]
      simp [jsIsWhitespace]
    · have hstep : splitOnChar '\n' (c :: cs) =
          match splitOnChar '\n' cs with
          | [] => [[c]]
          | p :: ps => (c :: p) :: ps := by
        simp [splitOnChar, hc]
      match hs : splitOnChar '\n' cs with
      | [] => exact absurd hs (splitOnChar_ne_nil '\n' cs)
      | p :: ps =>
        rw [hs] at hstep
        rw [hs, List.flatten_cons] at ih
        rw [hstep, List.flatten_cons, List.cons_append, List.filter_cons, List.filter_cons, ih]

theorem removeWS_strJoin_filter (q : String → Bool) (ps : List String)
    (h : ∀ p ∈ ps, q p = false → removeWS p = []) :
    removeWS (strJoin (ps.filter q)) = removeWS (strJoin ps) := by
  induction ps with
  | nil => rfl
  | cons p ps ih =>
    have htail : ∀ r ∈ ps, q r = false → removeWS r = [] :=
      fun r hr => h r (List.mem_cons_of_mem p hr)
    cases hq : q p with
    | true =>
      simp only [List.filter_cons, hq, if_true, strJoin]
      rw [removeWS_append, removeWS_append, ih htail]
    | false =>
      have hp : removeWS p = [] := h p (List.mem_cons_self p ps) hq
      simp only [List.filter_cons, hq, strJoin]
      rw [if_neg (by simp), removeWS_append, hp, ih htail]
      simp

theorem removeWS_strJoin_mk (ll : List (List Char)) :
    removeWS (strJoin (ll.map String.mk))
      = (ll.flatten).filter (fun c => !jsIsWhitespace c) := by
  induction ll with
  | nil => rfl
  | cons a ll ih =>
    simp only [List.map_cons, strJoin, List.flatten_cons, List.filter_append]
    rw [removeWS_append, ih]
    rfl

theorem removeWS_paragraphsOf (part : String) :
    removeWS (strJoin (paragraphsOf part)) = removeWS part := by
  unfold paragraphsOf
  rw [removeWS_strJoin_filter]
  · rw [removeWS_strJoin_mk, wsFilter_splitOnChar_join]
    rfl
  · intro p _ hq
    rw [decide_eq_false_iff_not, not_not] at hq
    exact (jsTrim_eq_empty_iff p).mp hq

theorem segs_residue (b : Bool) (parts : List String) (k : Nat) :
    removeWS (segmentsContent
        ((parts.enumFrom k).filterMap (fun p => partSegment b p.1 p.2)))
      = removeWS (strJoin parts) := by
  induction parts generalizing k with
  | nil => rfl
  | cons part parts ih =>
    show removeWS (segmentsContent
        (((k, part) :: parts.enumFrom (k + 1)).filterMap (fun p => partSegment b p.1 p.2)))
      = removeWS (part ++ strJoin parts)
    by_cases ht : jsTrim part = ""
    · have hnone : partSegment b k part = none := by simp [partSegment, ht]
      simp only [List.filterMap_cons, hnone]
      rw [ih, removeWS_append, (jsTrim_eq_empty_iff part).mp ht]
      simp
    · by_cases hpar : (b && k % 2 = 1) || (!b && k % 2 = 0)
      · have hsome : partSegment b k part = some (.code (jsTrim part)) := by
          simp only [partSegment, if_neg ht]
          rw [if_pos hpar]
        simp only [List.filterMap_cons, hsome, segmentsContent, List.map_cons, strJoin,
          segContent]
        rw [removeWS_append, removeWS_append, removeWS_jsTrim]
        exact congrArg _ (ih (k + 1))
      · have hsome : partSegment b k part = some (.text (paragraphsOf part)) := by
          simp only [partSegment, if_neg ht]
          rw [if_neg hpar]
        simp only [List.filterMap_cons, hsome, segmentsContent, List.map_cons, strJoin,
          segContent]
        rw [removeWS_append, removeWS_append, removeWS_paragraphsOf]
        exact congrArg _ (ih (k + 1))

theorem insertDesc_perm (x : EnhancedPrompt) (l : List EnhancedPrompt) :
    (insertDesc x l).Perm (x :: l) := by
  induction l with
  | nil => exact List.Perm.refl _
  | cons q qs ih =>
    by_cases h : q.createdAt < x.createdAt
    · simp [insertDesc, h]
    · simp only [insertDesc, if_neg h]
      exact (ih.cons q).trans (List.Perm.swap x q qs)

theorem sortByCreatedAtDesc_go_perm (l acc : List EnhancedPrompt) :
    (l.foldl (fun acc x => insertDesc x acc) acc).Perm (acc ++ l) := by
  induction l generalizing acc with
  | nil => simp
  | cons x l ih =>
    have h1 : ((x :: l).foldl (fun acc x => insertDesc x acc) acc)
        = l.foldl (fun acc x => insertDesc x acc) (insertDesc x acc) := rfl
    rw [h1]
    exact (ih (insertDesc x acc)).trans
      (((insertDesc_perm x acc).append_right l).trans List.perm_middle.symm)

theorem sortByCreatedAtDesc_perm (l : List EnhancedPrompt) :
    (sortByCreatedAtDesc l).Perm l := by
  simpa using sortByCreatedAtDesc_go_perm l []

theorem insertDesc_sorted {l : List EnhancedPrompt} (x : EnhancedPrompt)
    (h : l.Pairwise (fun a b => b.createdAt ≤ a.createdAt)) :
    (insertDesc x l).Pairwise (fun a b => b.createdAt ≤ a.createdAt) := by
  induction l with
  | nil => simp [insertDesc]
  | cons q qs ih =>
    by_cases hc : q.createdAt < x.createdAt
    · simp only [insertDesc, if_pos hc]
      refine List.Pairwise.cons ?_ h
      intro r hr
      rcases List.mem_cons.mp hr with hr | hr
      · subst hr
        omega
      · have h3 : r.createdAt ≤ q.createdAt := List.rel_of_pairwise_cons h hr
        omega
    · simp only [insertDesc, if_neg hc]
      refine List.Pairwise.cons ?_ (ih (List.Pairwise.of_cons h))
      intro r hr
      have hr2 := (insertDesc_perm x qs).mem_iff.mp hr
      rcases List.mem_cons.mp hr2 with hr2 | hr2
      · subst hr2
        omega
      · exact List.rel_of_pairwise_cons h hr2

theorem sortByCreatedAtDesc_go_sorted (l acc : List EnhancedPrompt)
    (h : acc.Pairwise (fun a b => b.createdAt ≤ a.createdAt)) :
    (l.foldl (fun acc x => insertDesc x acc) acc).Pairwise
      (fun a b => b.createdAt ≤ a.createdAt) := by
  induction l generalizing acc with
  | nil => exact h
  | cons x l ih => exact ih (insertDesc x acc) (insertDesc_sorted x h)

theorem sortByCreatedAtDesc_sorted (l : List EnhancedPrompt) :
    (sortByCreatedAtDesc l).Pairwise (fun a b => b.createdAt ≤ a.createdAt) :=
  sortByCreatedAtDesc_go_sorted l [] (List.Pairwise.nil)

/-! ## Claims -/

/-- Claim C1, counterexample: at the enhancement call site a network
failure is surfaced with the label "Error enhancing prompt: ", not in the
exact form "Error: <message>" the claim requires of every call site. -/
theorem C1_counterexample :
    enhancerDeliver (.networkError "Failed to fetch")
      = some (.str "Error enhancing prompt: Failed to fetch") ∧
    enhancerDeliver (.networkError "Failed to fetch")
      ≠ some (.str "Error: Failed to fetch") := by
  constructor
  · rfl
  · intro h
    simp only [enhancerDeliver, handleChatOutcome, Option.some.injEq, JsValue.str.injEq] at h
    exact absurd h (by decide)

/-- Claim C1 as amended: every thrown failure of a chat-completion call
(network failure, non-JSON body, or a property access through an absent or
null step of the choices[0].message.content path) is caught and surfaced
as a single synthesized text — of the exact form "Error: <message>" at the
direct-submission and post-enhancement call sites, and of the form
"Error enhancing prompt: <message>" at the enhancement call site — and is
never rethrown: each call site always delivers a value.  (When only the
final content field is absent, the undefined value is delivered as-is
rather than being turned into an error string.) -/
theorem C1_errors_surfaced_as_text (m e : String) (v : JsValue) :
    promptFormDeliver (.networkError m) = some (.str ("Error: " ++ m)) ∧
    promptFormDeliver (.nonJsonBody m) = some (.str ("Error: " ++ m)) ∧
    appDeliver (.networkError m) = some (.str ("Error: " ++ m)) ∧
    appDeliver (.nonJsonBody m) = some (.str ("Error: " ++ m)) ∧
    enhancerDeliver (.networkError m)
      = some (.str ("Error enhancing prompt: " ++ m)) ∧
    enhancerDeliver (.nonJsonBody m)
      = some (.str ("Error enhancing prompt: " ++ m)) ∧
    (extractContent v = .error e →
      promptFormDeliver (.jsonBody v) = some (.str ("Error: " ++ e)) ∧
      appDeliver (.jsonBody v) = some (.str ("Error: " ++ e)) ∧
      enhancerDeliver (.jsonBody v)
        = some (.str ("Error enhancing prompt: " ++ e))) := by
  refine ⟨rfl, rfl, rfl, rfl, rfl, rfl, fun h => ⟨?_, ?_, ?_⟩⟩ <;>
    simp [promptFormDeliver, appDeliver, enhancerDeliver, handleChatOutcome, h]

/-- Witness for C1: the concrete parsed body `null` makes the extraction
path throw, and each call site delivers its synthesized error text. -/
theorem C1_errors_surfaced_as_text_witness :
    promptFormDeliver (.jsonBody .null)
      = some (.str ("Error: " ++ "Cannot read properties of null (reading choices)")) ∧
    enhancerDeliver (.jsonBody .null)
      = some (.str ("Error enhancing prompt: "
          ++ "Cannot read properties of null (reading choices)")) := by
  have h := (C1_errors_surfaced_as_text "m"
    "Cannot read properties of null (reading choices)" .null).2.2.2.2.2.2 rfl
  exact ⟨h.1, h.2.2⟩

/-- Claim C2, counterexample: the post-enhancement call site builds its
body without a stream field, so not every chat-completion call sends the
documented six-field body. -/
theorem C2_counterexample :
    objKeys (appRequest "http://localhost:1234" "sys" "hi").body
      = ["model", "messages", "temperature", "max_tokens"] ∧
    "stream" ∉ objKeys (appRequest "http://localhost:1234" "sys" "hi").body := by
  constructor
  · rfl
  · intro h
    rw [show objKeys (appRequest "http://localhost:1234" "sys" "hi").body
      = ["model", "messages", "temperature", "max_tokens"] from rfl] at h
    simp at h

/-- Claim C2 as amended: each call site performs exactly one POST to
{baseUrl}/v1/chat/completions.  The direct-submission site sends the JSON
body {model, messages: [system, user], temperature, max_tokens, stream} with
exactly those fields taken from its inputs, and maxTokens — including the
sentinel -1 — is placed in max_tokens unchanged.  The post-enhancement and
enhancement sites send bodies with exactly the fields {model, messages,
temperature, max_tokens} (no stream field), with the fixed model
mistral-nemo-instruct-2407, temperature 0.7 and max_tokens -1. -/
theorem C2_request_shape (apiEndpoint model systemPrompt userPrompt basePrompt : String)
    (temperature : Rat) (maxTokens : Int) (stream : Bool) :
    (promptFormRequests apiEndpoint model systemPrompt userPrompt
        temperature maxTokens stream).length = 1 ∧
    (promptFormRequest apiEndpoint model systemPrompt userPrompt
        temperature maxTokens stream).url = apiEndpoint ++ "/v1/chat/completions" ∧
    (promptFormRequest apiEndpoint model systemPrompt userPrompt
        temperature maxTokens stream).method = "POST" ∧
    objKeys (promptFormRequest apiEndpoint model systemPrompt userPrompt
        temperature maxTokens stream).body
      = ["model", "messages", "temperature", "max_tokens", "stream"] ∧
    objGet (promptFormRequest apiEndpoint model systemPrompt userPrompt
        temperature maxTokens stream).body "model" = some (.str model) ∧
    objGet (promptFormRequest apiEndpoint model systemPrompt userPrompt
        temperature maxTokens stream).body "messages"
      = some (messagesJson systemPrompt userPrompt) ∧
    objGet (promptFormRequest apiEndpoint model systemPrompt userPrompt
        temperature maxTokens stream).body "temperature" = some (.num temperature) ∧
    objGet (promptFormRequest apiEndpoint model systemPrompt userPrompt
        temperature maxTokens stream).body "max_tokens" = some (.num maxTokens) ∧
    objGet (promptFormRequest apiEndpoint model systemPrompt userPrompt
        temperature maxTokens stream).body "stream" = some (.bool stream) ∧
    (appRequests apiEndpoint systemPrompt userPrompt).length = 1 ∧
    (appRequest apiEndpoint systemPrompt userPrompt).url
      = apiEndpoint ++ "/v1/chat/completions" ∧
    (appRequest apiEndpoint systemPrompt userPrompt).method = "POST" ∧
    objKeys (appRequest apiEndpoint systemPrompt userPrompt).body
      = ["model", "messages", "temperature", "max_tokens"] ∧
    objGet (appRequest apiEndpoint systemPrompt userPrompt).body "model"
      = some (.str "mistral-nemo-instruct-2407") ∧
    objGet (appRequest apiEndpoint systemPrompt userPrompt).body "temperature"
      = some (.num (7/10)) ∧
    objGet (appRequest apiEndpoint systemPrompt userPrompt).body "max_tokens"
      = some (.num (-1 : Int)) ∧
    objGet (appRequest apiEndpoint systemPrompt userPrompt).body "messages"
      = some (messagesJson systemPrompt userPrompt) ∧
    (enhancerRequests apiEndpoint basePrompt).length = 1 ∧
    (enhancerRequest apiEndpoint basePrompt).url
      = apiEndpoint ++ "/v1/chat/completions" ∧
    (enhancerRequest apiEndpoint basePrompt).method = "POST" ∧
    objKeys (enhancerRequest apiEndpoint basePrompt).body
      = ["model", "messages", "temperature", "max_tokens"] ∧
    objGet (enhancerRequest apiEndpoint basePrompt).body "model"
      = some (.str "mistral-nemo-instruct-2407") ∧
    objGet (enhancerRequest apiEndpoint basePrompt).body "temperature"
      = some (.num (7/10)) ∧
    objGet (enhancerRequest apiEndpoint basePrompt).body "max_tokens"
      = some (.num (-1 : Int)) ∧
    objGet (enhancerRequest apiEndpoint basePrompt).body "messages"
      = some (messagesJson ENHANCEMENT_SYSTEM_PROMPT basePrompt) := by
  refine ⟨rfl, rfl, rfl, rfl, ?_, ?_, ?_, ?_, ?_, rfl, rfl, rfl, rfl, ?_, ?_, ?_, ?_,
    rfl, rfl, rfl, rfl, ?_, ?_, ?_, ?_⟩ <;>
    simp [objGet, promptFormRequest, appRequest, enhancerRequest, List.find?]

/-- Claim C3: the formatter splits on the fence delimiter and assigns the
kind of each non-blank split part by parity conditioned on the start of
the input — parts at odd indices are code when the trimmed text starts
with the fence marker, parts at even indices are code otherwise — and on
the input "```x```\ntail" the first emitted segment is a code segment with
content "x". -/
theorem C3_parity_conditioned_on_start (text part : String) (i : Nat)
    (h : jsTrim part ≠ "") :
    (partSegment (startsFence text) i part = some (.code (jsTrim part)) ↔
      ((startsFence text = true ∧ i % 2 = 1) ∨
        (startsFence text = false ∧ i % 2 = 0))) ∧
    (formatOutput "```x```\ntail").head? = some (.code "x") := by
  have hbool : (((startsFence text && decide (i % 2 = 1))
        || (!startsFence text && decide (i % 2 = 0))) = true) ↔
      ((startsFence text = true ∧ i % 2 = 1) ∨
        (startsFence text = false ∧ i % 2 = 0)) := by
    cases hb : startsFence text <;> simp
  constructor
  · simp only [partSegment, if_neg h]
    by_cases hc : ((startsFence text && decide (i % 2 = 1))
        || (!startsFence text && decide (i % 2 = 0))) = true
    · rw [if_pos hc]
      simp [hbool.mp hc]
    · rw [if_neg hc]
      rw [hbool] at hc
      simp [hc]
  · decide

/-- Witness for C3 at the input "```x```\ntail": index 1 (odd, input starts
with a fence) is assigned a code segment, and the first emitted segment of
the full formatter is the code segment "x". -/
theorem C3_parity_conditioned_on_start_witness :
    partSegment (startsFence "```x```\ntail") 1 "x" = some (.code "x") ∧
    (formatOutput "```x```\ntail").head? = some (.code "x") := by
  have h := C3_parity_conditioned_on_start "```x```\ntail" "x" 1 (by decide)
  refine ⟨?_, h.2⟩
  have h1 := h.1.mpr (Or.inl ⟨by decide, rfl⟩)
  simpa using h1

/-- Claim C4 names the intended rendering of "a\n```code```\nb"; the code
disagrees: because the kind test marks even-indexed parts as code when the
input does not start with a fence, the formatter emits the prose parts "a"
and "b" as code segments and the fenced part "code" as a text segment. -/
theorem C4_divergent_output :
    formatOutput "a\n```code```\nb"
      = [.code "a", .text ["code"], .code "b"] ∧
    formatOutput "a\n```code```\nb"
      ≠ [.text ["a"], .code "code", .text ["b"]] := by
  constructor
  · decide
  · decide

/-- Claim C5: for every input, concatenating the formatter output (with
the fence markers stripped) reconstructs the non-whitespace
content of the input in order, and no emitted segment is empty: whitespace-only split
parts are dropped entirely. -/
theorem C5_reconstruction (text : String) :
    removeWS (segmentsContent (formatOutput text)) = removeWS (fenceStripped text) ∧
    ∀ seg ∈ formatOutput text, segHasContent seg := by
  constructor
  · by_cases ht : text = ""
    · subst ht
      decide
    · simp only [formatOutput, if_neg ht]
      exact segs_residue (startsFence text) (splitFences text) 0
  · intro seg hseg
    by_cases ht : text = ""
    · rw [ht] at hseg
      simp [formatOutput] at hseg
    · simp only [formatOutput, if_neg ht] at hseg
      rw [List.mem_filterMap] at hseg
      obtain ⟨⟨i, part⟩, _, hps⟩ := hseg
      by_cases htp : jsTrim part = ""
      · simp [partSegment, htp] at hps
      · simp only [partSegment, if_neg htp] at hps
        by_cases hc : ((startsFence text && decide (i % 2 = 1))
            || (!startsFence text && decide (i % 2 = 0))) = true
        · rw [if_pos hc] at hps
          rw [Option.some.injEq] at hps
          subst hps
          exact htp
        · rw [if_neg hc] at hps
          rw [Option.some.injEq] at hps
          subst hps
          constructor
          · intro hnil
            have hres := removeWS_paragraphsOf part
            rw [hnil] at hres
            exact htp ((jsTrim_eq_empty_iff part).mpr (by simpa using hres.symm))
          · intro p hp
            have hkeep := (List.mem_filter.mp hp).2
            rw [decide_eq_true_eq] at hkeep
            intro hpe
            rw [hpe] at hkeep
            exact hkeep rfl

/-- Witness for C5 at the input "a\n```code```\nb" and its first emitted
segment. -/
theorem C5_reconstruction_witness :
    removeWS (segmentsContent (formatOutput "a\n```code```\nb"))
      = removeWS (fenceStripped "a\n```code```\nb") ∧
    segHasContent (Segment.code "a") := by
  have h := C5_reconstruction "a\n```code```\nb"
  exact ⟨h.1, h.2 (Segment.code "a") (by decide)⟩

/-- Claim C6: with nothing stored under the collection key, load returns
the documented default — the non-empty seed preset list, respectively the
empty library — and with malformed stored data, load logs a diagnostic and
keeps the in-memory default instead of raising. -/
theorem C6_load_defaults (decodeP : String → Option (List ModelPreset))
    (decodeL : String → Option (List EnhancedPrompt)) (blob : String) :
    loadStored DEFAULT_PRESETS decodeP none = (DEFAULT_PRESETS, false) ∧
    DEFAULT_PRESETS ≠ [] ∧
    loadStored ([] : List EnhancedPrompt) decodeL none = ([], false) ∧
    (blob ≠ "" → decodeP blob = none →
      loadStored DEFAULT_PRESETS decodeP (some blob) = (DEFAULT_PRESETS, true)) ∧
    (blob ≠ "" → decodeL blob = none →
      loadStored ([] : List EnhancedPrompt) decodeL (some blob) = ([], true)) := by
  refine ⟨rfl, by decide, rfl, ?_, ?_⟩ <;>
  · intro h1 h2
    simp [loadStored, h1, h2]

/-- Witness for C6: a decoder that rejects the blob "bad" makes both loads
fall back to their defaults with a diagnostic. -/
theorem C6_load_defaults_witness :
    loadStored DEFAULT_PRESETS (fun _ => none) (some "bad") = (DEFAULT_PRESETS, true) ∧
    loadStored ([] : List EnhancedPrompt) (fun _ => none) (some "bad") = ([], true) := by
  have h := C6_load_defaults (fun _ => none) (fun _ => none) "bad"
  exact ⟨h.2.2.2.1 (by decide) rfl, h.2.2.2.2 (by decide) rfl⟩

/-- Claim C7: for both collections, add appends exactly one record at the
end, with a fresh id distinct from every pre-existing id and the remaining
fields taken from the current inputs; the updated collection is persisted,
and a reload returns it with the new record and all pre-existing records
intact; id uniqueness of the collection is preserved. -/
theorem C7_add_then_load (st : LibraryState) (pst : PresetState)
    (basePrompt enhancedPrompt selectedCategory newId : String) (now : Int)
    (newPresetName model systemPrompt pid : String) (temperature : Rat) (maxTokens : Int)
    (hE : enhancedPrompt ≠ "")
    (hFresh : ∀ p ∈ st.savedPrompts, p.id ≠ newId)
    (hName : jsTrim newPresetName ≠ "")
    (hPFresh : ∀ p ∈ pst.presets, p.id ≠ pid) :
    (saveEnhancedPrompt st basePrompt enhancedPrompt selectedCategory newId now).savedPrompts = st.savedPrompts ++ [(⟨newId, basePrompt, enhancedPrompt, ENHANCEMENT_SYSTEM_PROMPT, selectedCategory, now, false⟩ : EnhancedPrompt)] ∧
    (saveEnhancedPrompt st basePrompt enhancedPrompt selectedCategory newId now).stored = some ((saveEnhancedPrompt st basePrompt enhancedPrompt selectedCategory newId now).savedPrompts) ∧
    reloadLibrary (saveEnhancedPrompt st basePrompt enhancedPrompt selectedCategory newId now).stored = st.savedPrompts ++ [(⟨newId, basePrompt, enhancedPrompt, ENHANCEMENT_SYSTEM_PROMPT, selectedCategory, now, false⟩ : EnhancedPrompt)] ∧
    (⟨newId, basePrompt, enhancedPrompt, ENHANCEMENT_SYSTEM_PROMPT, selectedCategory, now, false⟩ : EnhancedPrompt) ∈ reloadLibrary (saveEnhancedPrompt st basePrompt enhancedPrompt selectedCategory newId now).stored ∧
    (∀ p ∈ st.savedPrompts, p ∈ reloadLibrary (saveEnhancedPrompt st basePrompt enhancedPrompt selectedCategory newId now).stored ∧ p.id ≠ newId) ∧
    ((st.savedPrompts.map EnhancedPrompt.id).Nodup →
      ((reloadLibrary (saveEnhancedPrompt st basePrompt enhancedPrompt selectedCategory newId now).stored).map EnhancedPrompt.id).Nodup) ∧
    (saveCurrentAsPreset pst newPresetName model systemPrompt temperature maxTokens pid).presets = pst.presets ++ [(⟨pid, newPresetName, model, systemPrompt, temperature, maxTokens⟩ : ModelPreset)] ∧
    (saveCurrentAsPreset pst newPresetName model systemPrompt temperature maxTokens pid).stored = some ((saveCurrentAsPreset pst newPresetName model systemPrompt temperature maxTokens pid).presets) ∧
    reloadPresets (saveCurrentAsPreset pst newPresetName model systemPrompt temperature maxTokens pid).stored = pst.presets ++ [(⟨pid, newPresetName, model, systemPrompt, temperature, maxTokens⟩ : ModelPreset)] ∧
    (⟨pid, newPresetName, model, systemPrompt, temperature, maxTokens⟩ : ModelPreset) ∈ reloadPresets (saveCurrentAsPreset pst newPresetName model systemPrompt temperature maxTokens pid).stored ∧
    (∀ p ∈ pst.presets, p ∈ reloadPresets (saveCurrentAsPreset pst newPresetName model systemPrompt temperature maxTokens pid).stored ∧ p.id ≠ pid) ∧
    ((pst.presets.map ModelPreset.id).Nodup →
      ((reloadPresets (saveCurrentAsPreset pst newPresetName model systemPrompt temperature maxTokens pid).stored).map ModelPreset.id).Nodup) := by
  have hsave : (saveEnhancedPrompt st basePrompt enhancedPrompt selectedCategory newId now).savedPrompts = st.savedPrompts ++ [(⟨newId, basePrompt, enhancedPrompt, ENHANCEMENT_SYSTEM_PROMPT, selectedCategory, now, false⟩ : EnhancedPrompt)] := by
    simp [saveEnhancedPrompt, hE]
  have hstored : (saveEnhancedPrompt st basePrompt enhancedPrompt selectedCategory newId now).stored = some ((saveEnhancedPrompt st basePrompt enhancedPrompt selectedCategory newId now).savedPrompts) := by
    simp [saveEnhancedPrompt, hE]
  have hpsave : (saveCurrentAsPreset pst newPresetName model systemPrompt temperature maxTokens pid).presets = pst.presets ++ [(⟨pid, newPresetName, model, systemPrompt, temperature, maxTokens⟩ : ModelPreset)] := by
    simp [saveCurrentAsPreset, hName]
  have hpstored : (saveCurrentAsPreset pst newPresetName model systemPrompt temperature maxTokens pid).stored = some ((saveCurrentAsPreset pst newPresetName model systemPrompt temperature maxTokens pid).presets) := by
    simp [saveCurrentAsPreset, hName]
  have hreload : reloadLibrary (saveEnhancedPrompt st basePrompt enhancedPrompt selectedCategory newId now).stored = st.savedPrompts ++ [(⟨newId, basePrompt, enhancedPrompt, ENHANCEMENT_SYSTEM_PROMPT, selectedCategory, now, false⟩ : EnhancedPrompt)] := by
    rw [hstored, hsave]
    rfl
  have hpreload : reloadPresets (saveCurrentAsPreset pst newPresetName model systemPrompt temperature maxTokens pid).stored = pst.presets ++ [(⟨pid, newPresetName, model, systemPrompt, temperature, maxTokens⟩ : ModelPreset)] := by
    rw [hpstored, hpsave]
    rfl
  refine ⟨hsave, hstored, hreload, ?_, ?_, ?_, hpsave, hpstored, hpreload, ?_, ?_, ?_⟩
  · rw [hreload]
    exact List.mem_append_right _ (List.mem_singleton_self _)
  · intro p hp
    exact ⟨by rw [hreload]; exact List.mem_append_left _ hp, hFresh p hp⟩
  · intro hnd
    rw [hreload, List.map_append]
    rw [List.nodup_append]
    refine ⟨hnd, List.nodup_singleton _, ?_⟩
    intro a ha hb
    rw [List.mem_map] at ha
    obtain ⟨p, hp, hpa⟩ := ha
    simp only [List.map_cons, List.map_nil, List.mem_singleton] at hb
    exact hFresh p hp (hpa.trans hb)
  · rw [hpreload]
    exact List.mem_append_right _ (List.mem_singleton_self _)
  · intro p hp
    exact ⟨by rw [hpreload]; exact List.mem_append_left _ hp, hPFresh p hp⟩
  · intro hnd
    rw [hpreload, List.map_append]
    rw [List.nodup_append]
    refine ⟨hnd, List.nodup_singleton _, ?_⟩
    intro a ha hb
    rw [List.mem_map] at ha
    obtain ⟨p, hp, hpa⟩ := ha
    simp only [List.map_cons, List.map_nil, List.mem_singleton] at hb
    exact hPFresh p hp (hpa.trans hb)

/-- Witness for C7 on initially empty collections. -/
theorem C7_add_then_load_witness :
    reloadLibrary (saveEnhancedPrompt ⟨[], none⟩ "orig" "enh" "General" "id1" 5).stored
      = [⟨"id1", "orig", "enh", ENHANCEMENT_SYSTEM_PROMPT, "General", 5, false⟩] ∧
    reloadPresets (saveCurrentAsPreset ⟨[], none, none⟩ "name" "m" "sys" (7/10) (-1)
        "id2").stored
      = [⟨"id2", "name", "m", "sys", 7/10, -1⟩] := by
  have h := C7_add_then_load ⟨[], none⟩ ⟨[], none, none⟩ "orig" "enh" "General" "id1" 5
    "name" "m" "sys" "id2" (7/10) (-1) (by decide) (by simp) (by decide) (by simp)
  exact ⟨h.2.2.1, h.2.2.2.2.2.2.2.2.1⟩

/-- Claim C8: for both collections, remove(id) followed by load returns no
record with that id; removing a nonexistent id leaves the collection
unchanged; the surviving records are exactly those with other ids, in
their original order. -/
theorem C8_remove (st : LibraryState) (pst : PresetState) (id pid : String) :
    (∀ p ∈ reloadLibrary (deletePrompt st id).stored, p.id ≠ id) ∧
    ((∀ p ∈ st.savedPrompts, p.id ≠ id) →
      (deletePrompt st id).savedPrompts = st.savedPrompts) ∧
    (∀ p ∈ st.savedPrompts, p.id ≠ id → p ∈ (deletePrompt st id).savedPrompts) ∧
    (deletePrompt st id).savedPrompts.Sublist st.savedPrompts ∧
    (∀ p ∈ reloadPresets (deletePreset pst pid).stored, p.id ≠ pid) ∧
    ((∀ p ∈ pst.presets, p.id ≠ pid) → (deletePreset pst pid).presets = pst.presets) ∧
    (∀ p ∈ pst.presets, p.id ≠ pid → p ∈ (deletePreset pst pid).presets) ∧
    (deletePreset pst pid).presets.Sublist pst.presets := by
  refine ⟨?_, ?_, ?_, ?_, ?_, ?_, ?_, ?_⟩
  · intro p hp
    have hm : p ∈ st.savedPrompts.filter (fun p => p.id ≠ id) := hp
    have hk := (List.mem_filter.mp hm).2
    simpa using hk
  · intro hall
    show st.savedPrompts.filter (fun p => p.id ≠ id) = st.savedPrompts
    rw [List.filter_eq_self]
    intro p hp
    simpa using hall p hp
  · intro p hp hne
    exact List.mem_filter.mpr ⟨hp, by simpa using hne⟩
  · exact List.filter_sublist _
  · intro p hp
    have hm : p ∈ pst.presets.filter (fun p => p.id ≠ pid) := hp
    have hk := (List.mem_filter.mp hm).2
    simpa using hk
  · intro hall
    show pst.presets.filter (fun p => p.id ≠ pid) = pst.presets
    rw [List.filter_eq_self]
    intro p hp
    simpa using hall p hp
  · intro p hp hne
    exact List.mem_filter.mpr ⟨hp, by simpa using hne⟩
  · exact List.filter_sublist _

/-- Witness for C8 on a two-record library and the seed presets. -/
theorem C8_remove_witness :
    (∀ p ∈ reloadLibrary (deletePrompt
        ⟨[⟨"a", "o", "e", "s", "General", 1, false⟩,
          ⟨"b", "o", "e", "s", "Coding", 2, true⟩], none⟩ "a").stored, p.id ≠ "a") ∧
    (deletePreset ⟨DEFAULT_PRESETS, none, none⟩ "9").presets = DEFAULT_PRESETS := by
  have h := C8_remove
    ⟨[⟨"a", "o", "e", "s", "General", 1, false⟩,
      ⟨"b", "o", "e", "s", "Coding", 2, true⟩], none⟩
    ⟨DEFAULT_PRESETS, none, none⟩ "a" "9"
  exact ⟨h.1, h.2.2.2.2.2.1 (by decide)⟩

/-- Claim C9: the library view filters by exact category match (everything
passes for the "All" wildcard) and then stably sorts by createdAt
descending, as a pure read of the stored collection: three records with
increasing timestamps render in reverse-chronological order, the view is
always sorted and is a permutation of the filtered records, and the
"Coding" filter over \x7bGeneral, Coding, Coding\x7d returns exactly the two
Coding records in sort order. -/
theorem C9_library_view (l : List EnhancedPrompt) (r1 r2 r3 : EnhancedPrompt) (cat : String)
    (h12 : r1.createdAt < r2.createdAt) (h23 : r2.createdAt < r3.createdAt) :
    libraryView [r1, r2, r3] "All" = [r3, r2, r1] ∧
    (libraryView l "All").Perm l ∧
    (libraryView l cat).Pairwise (fun a b => b.createdAt ≤ a.createdAt) ∧
    (cat ≠ "All" → ∀ p ∈ libraryView l cat, p.category = cat) ∧
    (∀ p ∈ l, p.category = cat → p ∈ libraryView l cat) ∧
    libraryView
        [⟨"g", "o", "e", "s", "General", 7, false⟩,
         ⟨"c1", "o", "e", "s", "Coding", 5, false⟩,
         ⟨"c2", "o", "e", "s", "Coding", 9, false⟩] "Coding"
      = [⟨"c2", "o", "e", "s", "Coding", 9, false⟩,
         ⟨"c1", "o", "e", "s", "Coding", 5, false⟩] := by
  have hfilterAll : ∀ m : List EnhancedPrompt,
      (m.filter (fun p => ("All" : String) = "All" || p.category = "All")) = m := by
    intro m
    rw [List.filter_eq_self]
    intro p _
    simp
  refine ⟨?_, ?_, ?_, ?_, ?_, ?_⟩
  · show sortByCreatedAtDesc _ = _
    rw [hfilterAll]
    simp [sortByCreatedAtDesc, insertDesc, h12, h23]
  · show (sortByCreatedAtDesc _).Perm l
    rw [hfilterAll]
    exact sortByCreatedAtDesc_perm l
  · exact sortByCreatedAtDesc_sorted _
  · intro hcat p hp
    have hmem : p ∈ l.filter (fun p => cat = "All" || p.category = cat) :=
      (sortByCreatedAtDesc_perm _).mem_iff.mp hp
    have hk := (List.mem_filter.mp hmem).2
    rcases Bool.or_eq_true_iff.mp hk with hk | hk
    · exact absurd (of_decide_eq_true hk) hcat
    · exact of_decide_eq_true hk
  · intro p hp hpc
    refine (sortByCreatedAtDesc_perm _).mem_iff.mpr ?_
    exact List.mem_filter.mpr ⟨hp, by simp [hpc]⟩
  · decide

/-- Witness for C9 with timestamps 1 < 2 < 3 and categories all distinct
from "All". -/
theorem C9_library_view_witness :
    libraryView
        [⟨"x", "o", "e", "s", "General", 1, false⟩,
         ⟨"y", "o", "e", "s", "General", 2, false⟩,
         ⟨"z", "o", "e", "s", "General", 3, false⟩] "All"
      = [⟨"z", "o", "e", "s", "General", 3, false⟩,
         ⟨"y", "o", "e", "s", "General", 2, false⟩,
         ⟨"x", "o", "e", "s", "General", 1, false⟩] ∧
    (∀ p ∈ libraryView [⟨"x", "o", "e", "s", "Coding", 1, false⟩] "Coding",
      p.category = "Coding") := by
  have h := C9_library_view [⟨"x", "o", "e", "s", "Coding", 1, false⟩]
    ⟨"x", "o", "e", "s", "General", 1, false⟩
    ⟨"y", "o", "e", "s", "General", 2, false⟩
    ⟨"z", "o", "e", "s", "General", 3, false⟩ "Coding" (by decide) (by decide)
  exact ⟨h.1, h.2.2.2.1 (by decide)⟩

/-- Claim C10: toggling the favorite flag negates the favorite field of
exactly the records whose id matches, in place, leaving their other fields
and every other record untouched, preserving length and order; when no
record carries the id the collection is unchanged; the result is
persisted. -/
theorem C10_toggle_favorite (st : LibraryState) (id : String) :
    (toggleFavorite st id).savedPrompts.length = st.savedPrompts.length ∧
    (∀ (i : Nat) (p : EnhancedPrompt), st.savedPrompts[i]? = some p →
      (p.id ≠ id → (toggleFavorite st id).savedPrompts[i]? = some p) ∧
      (p.id = id → ∃ q, (toggleFavorite st id).savedPrompts[i]? = some q ∧
        q.id = p.id ∧ q.originalPrompt = p.originalPrompt ∧
        q.enhancedPrompt = p.enhancedPrompt ∧ q.systemPrompt = p.systemPrompt ∧
        q.category = p.category ∧ q.createdAt = p.createdAt ∧
        q.favorite = !p.favorite)) ∧
    ((∀ p ∈ st.savedPrompts, p.id ≠ id) →
      (toggleFavorite st id).savedPrompts = st.savedPrompts) ∧
    (toggleFavorite st id).stored = some ((toggleFavorite st id).savedPrompts) := by
  refine ⟨List.length_map _ _, ?_, ?_, rfl⟩
  · intro i p hp
    constructor
    · intro hne
      show (st.savedPrompts.map _)[i]? = some p
      rw [List.getElem?_map, hp]
      simp [hne]
    · intro heq
      refine ⟨{ p with favorite := !p.favorite }, ?_, rfl, rfl, rfl, rfl, rfl, rfl, rfl⟩
      show (st.savedPrompts.map _)[i]? = _
      rw [List.getElem?_map, hp]
      simp [heq]
  · intro hall
    show st.savedPrompts.map _ = st.savedPrompts
    rw [show st.savedPrompts.map (fun p =>
        if p.id = id then { p with favorite := !p.favorite } else p)
      = st.savedPrompts.map (fun p => p) from
      List.map_congr_left (fun p hp => by simp [hall p hp])]
    exact List.map_id _

/-- Witness for C10 on a two-record library, toggling the second record. -/
theorem C10_toggle_favorite_witness :
    (toggleFavorite ⟨[⟨"a", "o", "e", "s", "General", 1, false⟩,
        ⟨"b", "o", "e", "s", "Coding", 2, false⟩], none⟩ "b").savedPrompts[0]?
      = some ⟨"a", "o", "e", "s", "General", 1, false⟩ ∧
    ∃ q, (toggleFavorite ⟨[⟨"a", "o", "e", "s", "General", 1, false⟩,
        ⟨"b", "o", "e", "s", "Coding", 2, false⟩], none⟩ "b").savedPrompts[1]?
      = some q ∧ q.id = "b" ∧ q.originalPrompt = "o" ∧ q.enhancedPrompt = "e" ∧
      q.systemPrompt = "s" ∧ q.category = "Coding" ∧ q.createdAt = 2 ∧
      q.favorite = !false := by
  have h := C10_toggle_favorite ⟨[⟨"a", "o", "e", "s", "General", 1, false⟩,
    ⟨"b", "o", "e", "s", "Coding", 2, false⟩], none⟩ "b"
  refine ⟨(h.2.1 0 ⟨"a", "o", "e", "s", "General", 1, false⟩ rfl).1 (by decide), ?_⟩
  have h2 := (h.2.1 1 ⟨"b", "o", "e", "s", "Coding", 2, false⟩ rfl).2 rfl
  exact h2

end PromptEnhancer
